import Mathlib

/-!
Shallow embedding of the kovri configuration subsystem
(`src/app/util/Config.h`, `src/app/util/Config.cpp`).

`ParseArgs` builds the option registry (boost `options_description`s
`help`, `basic`, `system`, `network`, `proxy`, `i2pcs`, `config`),
stores the command-line options into the shared `variables_map`,
parses the config file into the same map, and then handles the
`help` / `help-with` flags.  The boost `variables_map` store
semantics are embedded explicitly: an explicitly stored key becomes
*final* and later stores never overwrite it; default values are
applied only to keys that have no entry yet.
-/

namespace Kovri

/-- A typed option value (`boost::any` held by a `variable_value`):
the registry declares `bool`, `int` and `std::string` options, and the
valueless `help` flag stores an empty string (`untyped_value`). -/
inductive Value
  | vBool (b : Bool)
  | vInt (n : Int)
  | vString (s : String)
deriving DecidableEq, Repr

/-- The value semantic declared for an option in the registry. `tFlag` is
boost's `untyped_value` with zero tokens (used by `help`). -/
inductive VType
  | tFlag
  | tBool
  | tInt
  | tString
deriving DecidableEq, Repr

/-- One option descriptor of the registry: long key, optional short alias
(`"port,p"` gives short `"p"`), declared value type, and the declared
`default_value` if any. -/
structure Descriptor where
  key : String
  short : Option String
  vtype : VType
  defaultValue : Option Value
deriving DecidableEq, Repr

/-- Values supplied by external collaborators before the registry is built:
the randomized port from `i2p::crypto::RandInRange<size_t>(9111, 30777)` and
the two default paths from `i2p::util::filesystem::GetFullPath`. -/
structure Params where
  randPort : Int
  kovriConfPath : String
  tunnelsCfgPath : String

/-- `options_description help` (Config.cpp lines 54-90): the `help` flag
takes no value; `help-with` takes a string. Neither has a default. -/
def help : List Descriptor :=
  [⟨"help", some "h", .tFlag, none⟩,
   ⟨"help-with", some "w", .tString, none⟩]

/-- `options_description basic` (lines 92-99): `host` and `port`; the
`port` default is the randomized port computed at line 52. -/
def basic (P : Params) : List Descriptor :=
  [⟨"host", none, .tString, some (.vString "127.0.0.1")⟩,
   ⟨"port", some "p", .tInt, some (.vInt P.randPort)⟩]

/-- `options_description system` (lines 101-115). -/
def system : List Descriptor :=
  [⟨"log", some "l", .tBool, some (.vBool false)⟩,
   ⟨"daemon", some "d", .tBool, some (.vBool false)⟩,
   ⟨"service", some "s", .tBool, some (.vBool false)⟩]

/-- `options_description network` (lines 117-129). -/
def network : List Descriptor :=
  [⟨"v6", some "6", .tBool, some (.vBool false)⟩,
   ⟨"floodfill", some "f", .tBool, some (.vBool false)⟩,
   ⟨"bandwidth", some "b", .tString, some (.vString "L")⟩]

/-- `options_description proxy` (lines 134-149). -/
def proxy : List Descriptor :=
  [⟨"httpproxyport", none, .tInt, some (.vInt 4446)⟩,
   ⟨"httpproxyaddress", none, .tString, some (.vString "127.0.0.1")⟩,
   ⟨"socksproxyport", none, .tInt, some (.vInt 4447)⟩,
   ⟨"socksproxyaddress", none, .tString, some (.vString "127.0.0.1")⟩,
   ⟨"proxykeys", some "k", .tString, some (.vString "")⟩]

/-- `options_description i2pcs` (lines 151-162). -/
def i2pcs : List Descriptor :=
  [⟨"i2pcontrolport", none, .tInt, some (.vInt 0)⟩,
   ⟨"i2pcontroladdress", none, .tString, some (.vString "127.0.0.1")⟩,
   ⟨"i2pcontrolpassword", none, .tString, some (.vString "itoopie")⟩]

/-- `options_description config` (lines 164-173): the `config` and
`tunnelscfg` defaults are the externally resolved paths. -/
def config (P : Params) : List Descriptor :=
  [⟨"config", some "c", .tString, some (.vString P.kovriConfPath)⟩,
   ⟨"tunnelscfg", some "t", .tString, some (.vString P.tunnelsCfgPath)⟩]

/-- `config_options` (lines 182-189): every category except `help`. -/
def config_options (P : Params) : List Descriptor :=
  basic P ++ system ++ network ++ proxy ++ i2pcs ++ config P

/-- `cli_options` (lines 191-199): `help` plus every other category. -/
def cli_options (P : Params) : List Descriptor :=
  help ++ config_options P

/-- ASCII `tolower`, applied to each token character by boost's bool
validator. -/
def lowerChar (c : Char) : Char :=
  if 'A' ≤ c ∧ c ≤ 'Z' then Char.ofNat (c.toNat + 32) else c

/-- Boost's bool validator (`value_semantic.cpp`): lowercases the token;
`""`, `"on"`, `"yes"`, `"1"`, `"true"` mean true, `"off"`, `"no"`, `"0"`,
`"false"` mean false, anything else is an `invalid_bool_value` error. -/
def parseBoolStr (s : String) : Option Bool :=
  let t := s.data.map lowerChar
  if t = [] ∨ t = ['o', 'n'] ∨ t = ['y', 'e', 's'] ∨ t = ['1'] ∨
      t = ['t', 'r', 'u', 'e'] then some true
  else if t = ['o', 'f', 'f'] ∨ t = ['n', 'o'] ∨ t = ['0'] ∨
      t = ['f', 'a', 'l', 's', 'e'] then some false
  else none

/-- Accumulate a nonempty run of decimal digits (helper for
`parseIntStr`); any non-digit character fails. -/
def digitsToNat (acc : Nat) : List Char → Option Nat
  | [] => some acc
  | c :: cs =>
    if '0' ≤ c ∧ c ≤ '9' then digitsToNat (acc * 10 + (c.toNat - 48)) cs
    else none

/-- A nonempty all-digit character run as a natural number. -/
def digitRun : List Char → Option Nat
  | [] => none
  | cs => digitsToNat 0 cs

/-- `boost::lexical_cast<int>`: an optional sign followed by at least one
digit; anything else fails. -/
def parseIntStr (s : String) : Option Int :=
  match s.data with
  | '+' :: cs => (digitRun cs).map Int.ofNat
  | '-' :: cs => (digitRun cs).map (fun n => -(Int.ofNat n))
  | cs => (digitRun cs).map Int.ofNat

/-- Coerce a raw token to the descriptor's declared type (the
`value_semantic::parse` step inside `bpo::store`); `none` is a coercion
failure (boost throws `invalid_option_value`). A `tFlag` option takes no
token and stores an empty string. -/
def coerce : VType → Option String → Option Value
  | .tFlag, none => some (.vString "")
  | .tBool, some s => (parseBoolStr s).map .vBool
  | .tInt, some s => (parseIntStr s).map .vInt
  | .tString, some s => some (.vString s)
  | _, _ => none

/-- One stored `variable_value`: the value and boost's `defaulted` flag
(true when the value came from `default_value`, not from a source). -/
structure Entry where
  val : Value
  defaulted : Bool
deriving DecidableEq, Repr

/-- The boost `variables_map`: entries per key, plus the `m_final` set of
keys that were explicitly stored (non-composing semantics: once final,
later `store` calls skip the key). -/
structure VarMap where
  entries : String → Option Entry
  final : String → Bool

/-- The global `var_map` starts empty (Config.cpp line 44). -/
def emptyVarMap : VarMap :=
  ⟨fun _ => none, fun _ => false⟩

/-- Explicitly store a value: sets the entry with `defaulted = false` and
marks the key final. -/
def VarMap.setExplicit (vm : VarMap) (k : String) (v : Value) : VarMap :=
  ⟨fun x => if x = k then some ⟨v, false⟩ else vm.entries x,
   fun x => if x = k then true else vm.final x⟩

/-- Store a default value: sets the entry with `defaulted = true`; the key
is not marked final (a later explicit store may overwrite it). -/
def VarMap.setDefaulted (vm : VarMap) (k : String) (v : Value) : VarMap :=
  ⟨fun x => if x = k then some ⟨v, true⟩ else vm.entries x, vm.final⟩

/-- The fatal parse errors (boost exceptions thrown out of `ParseArgs`):
`unknown_option` from the parsers, `invalid_option_value` /
`invalid_bool_value` from `store`'s semantic parse. -/
inductive ParseError
  | unknownOption (name : String)
  | typeMismatch (key : String) (raw : String)
deriving DecidableEq, Repr

/-- One command-line argument as tokenized by `parse_command_line`:
the option name as typed (long key or short alias) and its raw token,
if any. -/
structure Arg where
  name : String
  value : Option String
deriving DecidableEq, Repr

/-- Look an option name up in a registry by long key or short alias
(command-line lookup). -/
def findDesc (descs : List Descriptor) (n : String) : Option Descriptor :=
  descs.find? (fun d => d.key == n || d.short == some n)

/-- Look an option name up by long key only (config-file lookup:
`parse_config_file` does not recognize short aliases). -/
def findDescLong (descs : List Descriptor) (n : String) : Option Descriptor :=
  descs.find? (fun d => d.key == n)

/-- `parse_command_line`: resolve each token against the registry; a token
matching no descriptor raises `unknown_option` before anything is stored. -/
def matchArgs (descs : List Descriptor) : List Arg →
    Except ParseError (List (Descriptor × Option String))
  | [] => .ok []
  | a :: rest =>
    match findDesc descs a.name with
    | none => .error (.unknownOption a.name)
    | some d => (matchArgs descs rest).map (fun l => (d, a.value) :: l)

/-- `parse_config_file`: resolve each `key = value` line against the
registry by long key; an unregistered key raises `unknown_option`. -/
def matchFile (descs : List Descriptor) : List (String × String) →
    Except ParseError (List (Descriptor × Option String))
  | [] => .ok []
  | (k, v) :: rest =>
    match findDescLong descs k with
    | none => .error (.unknownOption k)
    | some d => (matchFile descs rest).map (fun l => (d, some v) :: l)

/-- One step of `bpo::store`'s first loop: a final key is skipped before
any semantic parse; otherwise the raw token is coerced (failure throws)
and stored explicitly, making the key final. -/
def storeOne (vm : VarMap) (m : Descriptor × Option String) :
    Except ParseError VarMap :=
  if vm.final m.1.key then .ok vm
  else
    match coerce m.1.vtype m.2 with
    | none => .error (.typeMismatch m.1.key (m.2.getD ""))
    | some v => .ok (vm.setExplicit m.1.key v)

/-- `bpo::store`'s first loop over the parsed options, in order. -/
def storeMatched (vm : VarMap) :
    List (Descriptor × Option String) → Except ParseError VarMap
  | [] => .ok vm
  | m :: rest =>
    match storeOne vm m with
    | .error e => .error e
    | .ok vm₁ => storeMatched vm₁ rest

/-- `bpo::store`'s second loop: apply each descriptor's default value to
keys that have no entry at all. -/
def applyDefaults (vm : VarMap) : List Descriptor → VarMap
  | [] => vm
  | d :: rest =>
    let vm₁ :=
      if (vm.entries d.key).isSome then vm
      else
        match d.defaultValue with
        | some v => vm.setDefaulted d.key v
        | none => vm
    applyDefaults vm₁ rest

/-- `bpo::store(bpo::parse_command_line(...), var_map)` (line 201):
resolve tokens, store them, then apply defaults. -/
def store (descs : List Descriptor) (args : List Arg) (vm : VarMap) :
    Except ParseError VarMap :=
  match matchArgs descs args with
  | .error e => .error e
  | .ok matched =>
    match storeMatched vm matched with
    | .error e => .error e
    | .ok vm₁ => .ok (applyDefaults vm₁ descs)

/-- `bpo::store(bpo::parse_config_file(...), var_map)` (lines 245-249). -/
def fileStore (descs : List Descriptor) (es : List (String × String))
    (vm : VarMap) : Except ParseError VarMap :=
  match matchFile descs es with
  | .error e => .error e
  | .ok matched =>
    match storeMatched vm matched with
    | .error e => .error e
    | .ok vm₁ => .ok (applyDefaults vm₁ descs)

/-- The filesystem as seen through `std::ifstream`: a path either fails to
open (`none`) or yields the parsed `key = value` lines of the file. -/
def FS : Type := String → Option (List (String × String))

/-- `ParseConfigFile` (lines 237-252): an unopenable file is not fatal,
it prints `Could not open <path>!` and leaves the map untouched;
otherwise the file's options are stored into the shared map. -/
def ParseConfigFile (fs : FS) (path : String) (descs : List Descriptor)
    (vm : VarMap) : Except ParseError (VarMap × List String) :=
  match fs path with
  | none => .ok (vm, ["Could not open " ++ path ++ "!"])
  | some es => (fileStore descs es vm).map (fun vm₁ => (vm₁, []))

/-- The help categories that `help-with` can select (lines 216-227). -/
inductive HelpCategory
  | basic
  | system
  | network
  | proxy
  | i2pcs
  | config
deriving DecidableEq, Repr

/-- What the `help` / `help-with` block of `ParseArgs` writes to stdout
(lines 208-233): nothing, the banner plus the Help category (`cout <<
kovri`), all config options (`cout << config_options`), one category, or
the `Unknown option '<s>' Try using --help` message. -/
inductive HelpOutput
  | noHelp
  | generalHelp
  | allOptions
  | oneCategory (c : HelpCategory)
  | unknownHelpWith (s : String)
deriving DecidableEq, Repr

/-- The descriptors whose help text a given `HelpOutput` displays. -/
def renderedDescs (P : Params) : HelpOutput → List Descriptor
  | .noHelp => []
  | .generalHelp => help
  | .allOptions => config_options P
  | .oneCategory .basic => basic P
  | .oneCategory .system => system
  | .oneCategory .network => network
  | .oneCategory .proxy => proxy
  | .oneCategory .i2pcs => i2pcs
  | .oneCategory .config => config P
  | .unknownHelpWith _ => []

/-- The cascade of string comparisons on the `help-with` value
(lines 214-231). -/
def helpWithOutput (s : String) : HelpOutput :=
  if s = "all" then .allOptions
  else if s = "basic" then .oneCategory .basic
  else if s = "system" then .oneCategory .system
  else if s = "network" then .oneCategory .network
  else if s = "proxy" then .oneCategory .proxy
  else if s = "i2pcs" then .oneCategory .i2pcs
  else if s = "config" then .oneCategory .config
  else .unknownHelpWith s

/-- `var_map["..."].as<std::string>()` on a string-typed entry. -/
def getStr : Value → String
  | .vString s => s
  | _ => ""

/-- The `notify` side effect binding `kovri_config` (line 166 binds the
`config` option to the global; after the CLI store and notify, the global
holds the stored `config` value). -/
def getConfigPath (vm : VarMap) : String :=
  match vm.entries "config" with
  | some e => getStr e.val
  | none => ""

/-- Everything observable about one `ParseArgs` run: the returned bool,
what the help block rendered, the final shared map, the path handed to
`ParseConfigFile`, and the messages `ParseConfigFile` printed. -/
structure ParseResult where
  ret : Bool
  rendered : HelpOutput
  vm : VarMap
  usedConfigPath : String
  fileMsgs : List String

/-- The `help` / `help-with` block and return value of `ParseArgs`
(lines 205-234): `help` is checked first (line 208) and short-circuits;
then `help-with` (line 212); otherwise the run returns true. -/
def finishArgs (vm₂ : VarMap) (path : String) (msgs : List String) :
    ParseResult :=
  if (vm₂.entries "help").isSome then ⟨false, .generalHelp, vm₂, path, msgs⟩
  else
    match vm₂.entries "help-with" with
    | some e => ⟨false, helpWithOutput (getStr e.val), vm₂, path, msgs⟩
    | none => ⟨true, .noHelp, vm₂, path, msgs⟩

/-- `ParseArgs` (lines 46-235): store the CLI options into the shared map
(line 201), notify (line 202, binding `kovri_config`), parse the config
file at the bound path into the same map (line 204), then handle `help`
(line 208) and `help-with` (line 212); boost exceptions propagate as
`Except.error`. -/
def ParseArgs (P : Params) (fs : FS) (args : List Arg) (vm₀ : VarMap) :
    Except ParseError ParseResult :=
  match store (cli_options P) args vm₀ with
  | .error e => .error e
  | .ok vm₁ =>
    match ParseConfigFile fs (getConfigPath vm₁) (config_options P) vm₁ with
    | .error e => .error e
    | .ok (vm₂, msgs) => .ok (finishArgs vm₂ (getConfigPath vm₁) msgs)

/-! Total projections of a run, used to state the claims without binding
an intermediate result. -/

/-- The map a failed run would expose: none (an exception propagates), so
any total projection maps failure to the empty map. -/
def okD (e : Except ParseError VarMap) : VarMap :=
  match e with
  | .ok vm => vm
  | .error _ => emptyVarMap

/-- The command-line parse on its own, from an empty map (its explicit
keys are exactly the keys the command line set). -/
def cliParse (P : Params) (args : List Arg) : Except ParseError VarMap :=
  store (cli_options P) args emptyVarMap

/-- The config-file contents parsed on their own, from an empty map (its
explicit keys are exactly the keys the file set). -/
def fileParse (P : Params) (es : List (String × String)) :
    Except ParseError VarMap :=
  fileStore (config_options P) es emptyVarMap

/-- The final shared map of a run (empty if the run threw). -/
def runVm (P : Params) (fs : FS) (args : List Arg) (vm₀ : VarMap) : VarMap :=
  match ParseArgs P fs args vm₀ with
  | .ok r => r.vm
  | .error _ => emptyVarMap

/-- The returned bool and the help rendering of a run. -/
def parseOut (P : Params) (fs : FS) (args : List Arg) (vm₀ : VarMap) :
    Option (Bool × HelpOutput) :=
  (ParseArgs P fs args vm₀).toOption.map (fun r => (r.ret, r.rendered))

/-- The config-file path a run handed to `ParseConfigFile`. -/
def runPath (P : Params) (fs : FS) (args : List Arg) (vm₀ : VarMap) : String :=
  match ParseArgs P fs args vm₀ with
  | .ok r => r.usedConfigPath
  | .error _ => ""

/-- The declared default of a key in a registry. -/
def getDefault (descs : List Descriptor) (k : String) : Option Value :=
  (findDescLong descs k).bind (fun d => d.defaultValue)

/-- Whether a run completed without a boost exception. -/
def isOkE {α : Type} : Except ParseError α → Bool
  | .ok _ => true
  | .error _ => false

/-- Modelled from the spec: the RNG collaborator
`i2p::crypto::RandInRange<size_t>(min, max)` (declared in
`core/crypto/Rand.h`, which is not part of this source slice).  Per the
spec it "returns an integer uniformly distributed in the inclusive range
[min, max] using a source suitable for security-sensitive randomness";
we model the contract every output satisfies: the output lies in the
inclusive range. -/
def SecureRandomInRange (lo hi r : Int) : Prop :=
  lo ≤ r ∧ r ≤ hi

/-- The CLI store followed by the file store of the given file contents,
into the shared map: the two-source merge that one `ParseArgs` run
performs before the help checks. -/
def mergedParse (P : Params) (args : List Arg)
    (es : List (String × String)) : Except ParseError VarMap :=
  match store (cli_options P) args emptyVarMap with
  | .error e => .error e
  | .ok vm₁ => fileStore (config_options P) es vm₁

/-- Concrete collaborator inputs for evaluating the embedding on sample
runs: a fixed randomized port and the default resolved paths. -/
def sampleParams : Params :=
  ⟨10000, "kovri.conf", "tunnels.cfg"⟩

/-! ### Structural lemmas about the `variables_map` store semantics -/

theorem isOkE_ok {α : Type} {e : Except ParseError α} (h : isOkE e = true) :
    ∃ a, e = .ok a := by
  cases e with
  | ok a => exact ⟨a, rfl⟩
  | error _ => simp [isOkE] at h

theorem storeMatched_cons_ok {vm vm' : VarMap} {m : Descriptor × Option String}
    {l : List (Descriptor × Option String)}
    (h : storeMatched vm (m :: l) = .ok vm') :
    ∃ vm₁, storeOne vm m = .ok vm₁ ∧ storeMatched vm₁ l = .ok vm' := by
  cases h₁ : storeOne vm m with
  | error e => simp [storeMatched, h₁] at h
  | ok vm₁ => exact ⟨vm₁, rfl, by simpa [storeMatched, h₁] using h⟩

theorem storeOne_ok_cases {vm vm' : VarMap} {m : Descriptor × Option String}
    (h : storeOne vm m = .ok vm') :
    (vm.final m.1.key = true ∧ vm' = vm) ∨
      (vm.final m.1.key = false ∧ ∃ v, coerce m.1.vtype m.2 = some v ∧
        vm' = vm.setExplicit m.1.key v) := by
  unfold storeOne at h
  split at h
  · next hf => exact Or.inl ⟨hf, (Except.ok.inj h).symm⟩
  · next hf =>
    right
    refine ⟨by simpa using hf, ?_⟩
    split at h
    · exact absurd h (by simp)
    · next v hc => exact ⟨v, hc, (Except.ok.inj h).symm⟩

theorem setExplicit_entries (vm : VarMap) (k : String) (v : Value)
    (x : String) :
    (vm.setExplicit k v).entries x =
      if x = k then some ⟨v, false⟩ else vm.entries x := rfl

theorem setExplicit_final (vm : VarMap) (k : String) (v : Value)
    (x : String) :
    (vm.setExplicit k v).final x = if x = k then true else vm.final x := rfl

theorem storeOne_untouched {vm vm' : VarMap} {m : Descriptor × Option String}
    {k : String} (h : storeOne vm m = .ok vm') (hne : m.1.key ≠ k) :
    vm'.entries k = vm.entries k ∧ vm'.final k = vm.final k := by
  rcases storeOne_ok_cases h with ⟨_, rfl⟩ | ⟨_, v, _, rfl⟩
  · exact ⟨rfl, rfl⟩
  · constructor
    · rw [setExplicit_entries, if_neg (fun hx => hne hx.symm)]
    · rw [setExplicit_final, if_neg (fun hx => hne hx.symm)]

theorem storeOne_final_frozen {vm vm' : VarMap}
    {m : Descriptor × Option String} {k : String}
    (h : storeOne vm m = .ok vm') (hk : vm.final k = true) :
    vm'.final k = true ∧ vm'.entries k = vm.entries k := by
  rcases storeOne_ok_cases h with ⟨_, rfl⟩ | ⟨hf, v, _, rfl⟩
  · exact ⟨hk, rfl⟩
  · have hne : m.1.key ≠ k := by
      intro hx
      rw [hx] at hf
      rw [hf] at hk
      cases hk
    constructor
    · rw [setExplicit_final, if_neg (fun hx => hne hx.symm)]
      exact hk
    · rw [setExplicit_entries, if_neg (fun hx => hne hx.symm)]

theorem storeMatched_final_frozen {k : String} :
    ∀ {l : List (Descriptor × Option String)} {vm vm' : VarMap},
    storeMatched vm l = .ok vm' → vm.final k = true →
    vm'.final k = true ∧ vm'.entries k = vm.entries k := by
  intro l
  induction l with
  | nil =>
    intro vm vm' h hk
    have hvv : vm = vm' := by simpa [storeMatched] using h
    subst hvv
    exact ⟨hk, rfl⟩
  | cons m rest ih =>
    intro vm vm' h hk
    obtain ⟨vm₁, h₁, h₂⟩ := storeMatched_cons_ok h
    obtain ⟨hf, he⟩ := storeOne_final_frozen h₁ hk
    obtain ⟨hf', he'⟩ := ih h₂ hf
    exact ⟨hf', he'.trans he⟩

theorem storeMatched_mem_final {d : Descriptor} {v : Option String} :
    ∀ {l : List (Descriptor × Option String)} {vm vm' : VarMap},
    storeMatched vm l = .ok vm' → (d, v) ∈ l → vm'.final d.key = true := by
  intro l
  induction l with
  | nil => intro vm vm' _ hm; cases hm
  | cons m rest ih =>
    intro vm vm' h hm
    obtain ⟨vm₁, h₁, h₂⟩ := storeMatched_cons_ok h
    rcases List.mem_cons.mp hm with hm | hm
    · have hfin : vm₁.final d.key = true := by
        rcases storeOne_ok_cases h₁ with ⟨hf, rfl⟩ | ⟨_, w, _, rfl⟩
        · rw [← hm] at hf; exact hf
        · rw [setExplicit_final, ← hm, if_pos rfl]
      exact (storeMatched_final_frozen h₂ hfin).1
    · exact ih h₂ hm

theorem storeMatched_not_final {k : String} :
    ∀ {l : List (Descriptor × Option String)} {vm vm' : VarMap},
    storeMatched vm l = .ok vm' → vm'.final k = false →
    vm'.entries k = vm.entries k ∧ vm.final k = false := by
  intro l
  induction l with
  | nil =>
    intro vm vm' h hk
    have hvv : vm = vm' := by simpa [storeMatched] using h
    subst hvv
    exact ⟨rfl, hk⟩
  | cons m rest ih =>
    intro vm vm' h hk
    obtain ⟨vm₁, h₁, h₂⟩ := storeMatched_cons_ok h
    obtain ⟨he', hf₁⟩ := ih h₂ hk
    rcases storeOne_ok_cases h₁ with ⟨hf, rfl⟩ | ⟨hf, w, _, rfl⟩
    · exact ⟨he', hf₁⟩
    · have hne : m.1.key ≠ k := by
        intro hx
        rw [setExplicit_final, if_pos hx.symm] at hf₁
        cases hf₁
      rw [setExplicit_entries, if_neg (fun hx => hne hx.symm)] at he'
      rw [setExplicit_final, if_neg (fun hx => hne hx.symm)] at hf₁
      exact ⟨he', hf₁⟩

theorem storeOne_isSome_mono {vm vm' : VarMap}
    {m : Descriptor × Option String} {k : String}
    (hs : (vm.entries k).isSome = true) (h : storeOne vm m = .ok vm') :
    (vm'.entries k).isSome = true := by
  rcases storeOne_ok_cases h with ⟨_, rfl⟩ | ⟨_, v, _, rfl⟩
  · exact hs
  · rw [setExplicit_entries]
    split
    · rfl
    · exact hs

theorem storeMatched_isSome_mono {k : String} :
    ∀ {l : List (Descriptor × Option String)} {vm vm' : VarMap},
    storeMatched vm l = .ok vm' → (vm.entries k).isSome = true →
    (vm'.entries k).isSome = true := by
  intro l
  induction l with
  | nil =>
    intro vm vm' h hs
    have hvv : vm = vm' := by simpa [storeMatched] using h
    subst hvv
    exact hs
  | cons m rest ih =>
    intro vm vm' h hs
    obtain ⟨vm₁, h₁, h₂⟩ := storeMatched_cons_ok h
    exact ih h₂ (storeOne_isSome_mono hs h₁)

/-- The invariant relating `m_final` to the entry map: a final key always
has an entry. -/
def FinalSome (vm : VarMap) : Prop :=
  ∀ k, vm.final k = true → (vm.entries k).isSome = true

theorem finalSome_empty : FinalSome emptyVarMap := by
  intro k hk
  cases hk

theorem storeOne_finalSome {vm vm' : VarMap} {m : Descriptor × Option String}
    (hi : FinalSome vm) (h : storeOne vm m = .ok vm') : FinalSome vm' := by
  rcases storeOne_ok_cases h with ⟨_, rfl⟩ | ⟨_, v, _, rfl⟩
  · exact hi
  · intro k hk
    rw [setExplicit_entries]
    rw [setExplicit_final] at hk
    by_cases hx : k = m.1.key
    · rw [if_pos hx]; rfl
    · rw [if_neg hx] at hk
      rw [if_neg hx]
      exact hi k hk

theorem storeMatched_finalSome :
    ∀ {l : List (Descriptor × Option String)} {vm vm' : VarMap},
    FinalSome vm → storeMatched vm l = .ok vm' → FinalSome vm' := by
  intro l
  induction l with
  | nil =>
    intro vm vm' hi h
    have hvv : vm = vm' := by simpa [storeMatched] using h
    subst hvv
    exact hi
  | cons m rest ih =>
    intro vm vm' hi h
    obtain ⟨vm₁, h₁, h₂⟩ := storeMatched_cons_ok h
    exact ih (storeOne_finalSome hi h₁) h₂

theorem setDefaulted_entries (vm : VarMap) (k : String) (v : Value)
    (x : String) :
    (vm.setDefaulted k v).entries x =
      if x = k then some ⟨v, true⟩ else vm.entries x := rfl

theorem applyDefaults_final (k : String) :
    ∀ (ds : List Descriptor) (vm : VarMap),
    (applyDefaults vm ds).final k = vm.final k := by
  intro ds
  induction ds with
  | nil => intro vm; rfl
  | cons d rest ih =>
    intro vm
    unfold applyDefaults
    split
    · exact ih vm
    · split
      · exact ih _
      · exact ih vm

theorem applyDefaults_entries_some {k : String} {e : Entry} :
    ∀ (ds : List Descriptor) {vm : VarMap}, vm.entries k = some e →
    (applyDefaults vm ds).entries k = some e := by
  intro ds
  induction ds with
  | nil => intro vm h; exact h
  | cons d rest ih =>
    intro vm h
    unfold applyDefaults
    split
    · exact ih h
    · next hn =>
      split
      · next v _ =>
        refine ih ?_
        rw [setDefaulted_entries]
        split
        · next hx =>
          rw [hx] at h
          rw [h] at hn
          simp at hn
        · exact h
      · exact ih h

theorem applyDefaults_isSome_mono {k : String} (ds : List Descriptor)
    {vm : VarMap} (h : (vm.entries k).isSome = true) :
    ((applyDefaults vm ds).entries k).isSome = true := by
  obtain ⟨e, he⟩ := Option.isSome_iff_exists.mp h
  rw [applyDefaults_entries_some ds he]
  rfl

theorem applyDefaults_finalSome {ds : List Descriptor} {vm : VarMap}
    (hi : FinalSome vm) : FinalSome (applyDefaults vm ds) := by
  intro k hk
  rw [applyDefaults_final] at hk
  exact applyDefaults_isSome_mono ds (hi k hk)

theorem applyDefaults_not_mem {k : String} :
    ∀ (ds : List Descriptor) (vm : VarMap),
    ¬ k ∈ ds.map Descriptor.key →
    (applyDefaults vm ds).entries k = vm.entries k := by
  intro ds
  induction ds with
  | nil => intro vm _; rfl
  | cons d rest ih =>
    intro vm hk
    have hne : k ≠ d.key := fun hx => hk (by rw [hx]; exact .head _)
    have hrest : ¬ k ∈ rest.map Descriptor.key := fun hx =>
      hk (List.mem_cons_of_mem _ hx)
    unfold applyDefaults
    split
    · exact ih vm hrest
    · split
      · rw [ih _ hrest, setDefaulted_entries, if_neg hne]
      · exact ih vm hrest

theorem applyDefaults_none_mem {d : Descriptor} :
    ∀ (ds : List Descriptor) (vm : VarMap),
    (ds.map Descriptor.key).Nodup → d ∈ ds → vm.entries d.key = none →
    (applyDefaults vm ds).entries d.key =
      d.defaultValue.map (fun v => (⟨v, true⟩ : Entry)) := by
  intro ds
  induction ds with
  | nil => intro vm _ hm; cases hm
  | cons d₀ rest ih =>
    intro vm hnd hm hk
    have hnd' := hnd
    rw [List.map_cons, List.nodup_cons] at hnd'
    rcases List.mem_cons.mp hm with hm | hm
    · subst hm
      have hnotin : ¬ d.key ∈ rest.map Descriptor.key := hnd'.1
      unfold applyDefaults
      split
      · next hsome => rw [hk] at hsome; simp at hsome
      · cases hdv : d.defaultValue with
        | none =>
          simp only [hdv]
          rw [applyDefaults_not_mem rest vm hnotin, hk]
          rfl
        | some v =>
          simp only [hdv]
          rw [applyDefaults_not_mem rest _ hnotin, setDefaulted_entries,
            if_pos rfl]
          rfl
    · have hne : d.key ≠ d₀.key := by
        intro hx
        exact hnd'.1 (hx ▸ List.mem_map_of_mem Descriptor.key hm)
      unfold applyDefaults
      split
      · exact ih vm hnd'.2 hm hk
      · split
        · refine ih _ hnd'.2 hm ?_
          rw [setDefaulted_entries, if_neg hne]
          exact hk
        · exact ih vm hnd'.2 hm hk

/-- A key with an entry moving to an available default: if the descriptor
is in the list and has a default, the key has an entry afterwards. -/
theorem applyDefaults_mem_isSome {d : Descriptor} (ds : List Descriptor)
    (vm : VarMap) (hnd : (ds.map Descriptor.key).Nodup) (hm : d ∈ ds)
    (hdef : d.defaultValue.isSome = true) :
    ((applyDefaults vm ds).entries d.key).isSome = true := by
  cases hk : vm.entries d.key with
  | some e => rw [applyDefaults_entries_some ds hk]; rfl
  | none =>
    rw [applyDefaults_none_mem ds vm hnd hm hk]
    obtain ⟨v, hv⟩ := Option.isSome_iff_exists.mp hdef
    rw [hv]
    rfl

/-- Two runs of the same `store` loop from states that agree in being
non-final at `k` stay synchronized at `k`: they become final together and
then hold the same explicitly stored value. -/
theorem storeMatched_sync {k : String} :
    ∀ {l : List (Descriptor × Option String)} {vmA vmB vmA' vmB' : VarMap},
    storeMatched vmA l = .ok vmA' → storeMatched vmB l = .ok vmB' →
    vmA.final k = false → vmB.final k = false →
    vmA'.final k = vmB'.final k ∧
      (vmA'.final k = true → vmA'.entries k = vmB'.entries k) := by
  intro l
  induction l with
  | nil =>
    intro vmA vmB vmA' vmB' hA hB hfA hfB
    have hA' : vmA = vmA' := by simpa [storeMatched] using hA
    have hB' : vmB = vmB' := by simpa [storeMatched] using hB
    subst hA'
    subst hB'
    rw [hfA, hfB]
    exact ⟨rfl, fun hx => by cases hx⟩
  | cons m rest ih =>
    intro vmA vmB vmA' vmB' hA hB hfA hfB
    obtain ⟨vmA₁, hA₁, hA₂⟩ := storeMatched_cons_ok hA
    obtain ⟨vmB₁, hB₁, hB₂⟩ := storeMatched_cons_ok hB
    by_cases hk : m.1.key = k
    · subst hk
      rcases storeOne_ok_cases hA₁ with ⟨hf, _⟩ | ⟨_, v, hcv, rfl⟩
      · rw [hfA] at hf; cases hf
      · rcases storeOne_ok_cases hB₁ with ⟨hf, _⟩ | ⟨_, w, hcw, rfl⟩
        · rw [hfB] at hf; cases hf
        · have hvw : v = w := by
            rw [hcv] at hcw
            exact Option.some.inj hcw
          subst hvw
          have hfinA : (vmA.setExplicit m.1.key v).final m.1.key = true := by
            rw [setExplicit_final, if_pos rfl]
          have hfinB : (vmB.setExplicit m.1.key v).final m.1.key = true := by
            rw [setExplicit_final, if_pos rfl]
          obtain ⟨hfA', heA'⟩ := storeMatched_final_frozen hA₂ hfinA
          obtain ⟨hfB', heB'⟩ := storeMatched_final_frozen hB₂ hfinB
          rw [hfA', hfB']
          refine ⟨rfl, fun _ => ?_⟩
          rw [heA', heB', setExplicit_entries, setExplicit_entries,
            if_pos rfl, if_pos rfl]
    · obtain ⟨heA, hffA⟩ := storeOne_untouched hA₁ hk
      obtain ⟨heB, hffB⟩ := storeOne_untouched hB₁ hk
      exact ih hA₂ hB₂ (hffA.trans hfA) (hffB.trans hfB)

/-! ### Elimination lemmas for the parsing pipeline -/

theorem matchArgs_mem {descs : List Descriptor} {a : Arg} {d : Descriptor} :
    ∀ {args : List Arg} {l : List (Descriptor × Option String)},
    matchArgs descs args = .ok l → a ∈ args →
    findDesc descs a.name = some d → (d, a.value) ∈ l := by
  intro args
  induction args with
  | nil => intro l _ hm; cases hm
  | cons a₀ rest ih =>
    intro l h hm hd
    unfold matchArgs at h
    cases hfd : findDesc descs a₀.name with
    | none => rw [hfd] at h; cases h
    | some d₀ =>
      rw [hfd] at h
      cases hrest : matchArgs descs rest with
      | error e => rw [hrest] at h; cases h
      | ok l₀ =>
        rw [hrest] at h
        have hl : l = (d₀, a₀.value) :: l₀ :=
          (Except.ok.inj h.symm)
        subst hl
        rcases List.mem_cons.mp hm with hm | hm
        · subst hm
          rw [hfd] at hd
          rw [Option.some.inj hd]
          exact .head _
        · exact List.mem_cons_of_mem _ (ih hrest hm hd)

theorem store_ok_elim {descs : List Descriptor} {args : List Arg}
    {vm vm' : VarMap} (h : store descs args vm = .ok vm') :
    ∃ matched vm₁, matchArgs descs args = .ok matched ∧
      storeMatched vm matched = .ok vm₁ ∧ vm' = applyDefaults vm₁ descs := by
  unfold store at h
  cases hma : matchArgs descs args with
  | error e => simp [hma] at h
  | ok matched =>
    simp only [hma] at h
    cases hsm : storeMatched vm matched with
    | error e => simp [hsm] at h
    | ok vm₁ =>
      simp only [hsm] at h
      exact ⟨matched, vm₁, rfl, hsm, (Except.ok.inj h).symm⟩

theorem fileStore_ok_elim {descs : List Descriptor}
    {es : List (String × String)} {vm vm' : VarMap}
    (h : fileStore descs es vm = .ok vm') :
    ∃ matched vm₁, matchFile descs es = .ok matched ∧
      storeMatched vm matched = .ok vm₁ ∧ vm' = applyDefaults vm₁ descs := by
  unfold fileStore at h
  cases hma : matchFile descs es with
  | error e => simp [hma] at h
  | ok matched =>
    simp only [hma] at h
    cases hsm : storeMatched vm matched with
    | error e => simp [hsm] at h
    | ok vm₁ =>
      simp only [hsm] at h
      exact ⟨matched, vm₁, rfl, hsm, (Except.ok.inj h).symm⟩

theorem ParseConfigFile_ok_elim {fs : FS} {path : String}
    {descs : List Descriptor} {vm vm₂ : VarMap} {msgs : List String}
    (h : ParseConfigFile fs path descs vm = .ok (vm₂, msgs)) :
    (fs path = none ∧ vm₂ = vm ∧
      msgs = ["Could not open " ++ path ++ "!"]) ∨
    (∃ es, fs path = some es ∧ fileStore descs es vm = .ok vm₂ ∧
      msgs = []) := by
  unfold ParseConfigFile at h
  cases hfs : fs path with
  | none =>
    simp only [hfs] at h
    have h' := Except.ok.inj h
    exact Or.inl ⟨rfl, (congrArg Prod.fst h').symm, (congrArg Prod.snd h').symm⟩
  | some es =>
    simp only [hfs] at h
    cases hst : fileStore descs es vm with
    | error e => simp [hst, Except.map] at h
    | ok vmf =>
      simp only [hst, Except.map] at h
      have h' := Except.ok.inj h
      have h1 : vmf = vm₂ := congrArg Prod.fst h'
      have h2 : msgs = [] := (congrArg Prod.snd h').symm
      exact Or.inr ⟨es, rfl, by rw [hst, h1], h2⟩

theorem ParseArgs_ok_elim {P : Params} {fs : FS} {args : List Arg}
    {vm₀ : VarMap} {r : ParseResult}
    (h : ParseArgs P fs args vm₀ = .ok r) :
    ∃ vm₁ vm₂ msgs, store (cli_options P) args vm₀ = .ok vm₁ ∧
      ParseConfigFile fs (getConfigPath vm₁) (config_options P) vm₁ =
        .ok (vm₂, msgs) ∧
      r = finishArgs vm₂ (getConfigPath vm₁) msgs := by
  unfold ParseArgs at h
  cases hst : store (cli_options P) args vm₀ with
  | error e => simp [hst] at h
  | ok vm₁ =>
    simp only [hst] at h
    cases hcf : ParseConfigFile fs (getConfigPath vm₁) (config_options P) vm₁
      with
    | error e => simp [hcf] at h
    | ok p =>
      simp only [hcf] at h
      exact ⟨vm₁, p.1, p.2, rfl, hcf, (Except.ok.inj h).symm⟩

theorem finishArgs_vm (vm₂ : VarMap) (path : String) (msgs : List String) :
    (finishArgs vm₂ path msgs).vm = vm₂ := by
  unfold finishArgs
  split
  · rfl
  · split <;> rfl

theorem finishArgs_path (vm₂ : VarMap) (path : String) (msgs : List String) :
    (finishArgs vm₂ path msgs).usedConfigPath = path := by
  unfold finishArgs
  split
  · rfl
  · split <;> rfl

/-! ### Registry facts -/

theorem cli_keys (P : Params) :
    (cli_options P).map Descriptor.key =
      ["help", "help-with", "host", "port", "log", "daemon", "service",
       "v6", "floodfill", "bandwidth", "httpproxyport", "httpproxyaddress",
       "socksproxyport", "socksproxyaddress", "proxykeys", "i2pcontrolport",
       "i2pcontroladdress", "i2pcontrolpassword", "config", "tunnelscfg"] :=
  rfl

theorem config_keys (P : Params) :
    (config_options P).map Descriptor.key =
      ["host", "port", "log", "daemon", "service",
       "v6", "floodfill", "bandwidth", "httpproxyport", "httpproxyaddress",
       "socksproxyport", "socksproxyaddress", "proxykeys", "i2pcontrolport",
       "i2pcontroladdress", "i2pcontrolpassword", "config", "tunnelscfg"] :=
  rfl

theorem cli_keys_nodup (P : Params) :
    ((cli_options P).map Descriptor.key).Nodup := by
  rw [cli_keys]
  decide

theorem config_keys_nodup (P : Params) :
    ((config_options P).map Descriptor.key).Nodup := by
  rw [config_keys]
  decide

theorem cli_mem_cases {P : Params} {d : Descriptor}
    (h : d ∈ cli_options P) : d ∈ help ∨ d ∈ config_options P := by
  rw [cli_options, List.mem_append] at h
  exact h

theorem help_mem_cases {d : Descriptor} (h : d ∈ help) :
    d = ⟨"help", some "h", .tFlag, none⟩ ∨
      d = ⟨"help-with", some "w", .tString, none⟩ := by
  simpa [help] using h

theorem help_keys_not_config {P : Params} {d : Descriptor} (h : d ∈ help) :
    ¬ d.key ∈ (config_options P).map Descriptor.key := by
  rcases help_mem_cases h with rfl | rfl <;>
    · rw [config_keys]
      decide

/-! ### Pipeline-level composition lemmas -/

theorem store_final_frozen {descs : List Descriptor} {args : List Arg}
    {vm vm' : VarMap} {k : String} {e : Entry}
    (h : store descs args vm = .ok vm') (hf : vm.final k = true)
    (he : vm.entries k = some e) :
    vm'.final k = true ∧ vm'.entries k = some e := by
  obtain ⟨matched, vm₁, _, hsm, rfl⟩ := store_ok_elim h
  obtain ⟨hf₁, he₁⟩ := storeMatched_final_frozen hsm hf
  rw [he] at he₁
  constructor
  · rw [applyDefaults_final]; exact hf₁
  · exact applyDefaults_entries_some descs he₁

theorem fileStore_final_frozen {descs : List Descriptor}
    {es : List (String × String)} {vm vm' : VarMap} {k : String} {e : Entry}
    (h : fileStore descs es vm = .ok vm') (hf : vm.final k = true)
    (he : vm.entries k = some e) :
    vm'.final k = true ∧ vm'.entries k = some e := by
  obtain ⟨matched, vm₁, _, hsm, rfl⟩ := fileStore_ok_elim h
  obtain ⟨hf₁, he₁⟩ := storeMatched_final_frozen hsm hf
  rw [he] at he₁
  constructor
  · rw [applyDefaults_final]; exact hf₁
  · exact applyDefaults_entries_some descs he₁

theorem ParseConfigFile_final_frozen {fs : FS} {path : String}
    {descs : List Descriptor} {vm vm₂ : VarMap} {msgs : List String}
    {k : String} {e : Entry}
    (h : ParseConfigFile fs path descs vm = .ok (vm₂, msgs))
    (hf : vm.final k = true) (he : vm.entries k = some e) :
    vm₂.final k = true ∧ vm₂.entries k = some e := by
  rcases ParseConfigFile_ok_elim h with ⟨_, rfl, _⟩ | ⟨es, _, hst, _⟩
  · exact ⟨hf, he⟩
  · exact fileStore_final_frozen hst hf he

theorem store_isSome_mono {descs : List Descriptor} {args : List Arg}
    {vm vm' : VarMap} {k : String}
    (h : store descs args vm = .ok vm')
    (hs : (vm.entries k).isSome = true) :
    (vm'.entries k).isSome = true := by
  obtain ⟨matched, vm₁, _, hsm, rfl⟩ := store_ok_elim h
  exact applyDefaults_isSome_mono descs (storeMatched_isSome_mono hsm hs)

theorem fileStore_isSome_mono {descs : List Descriptor}
    {es : List (String × String)} {vm vm' : VarMap} {k : String}
    (h : fileStore descs es vm = .ok vm')
    (hs : (vm.entries k).isSome = true) :
    (vm'.entries k).isSome = true := by
  obtain ⟨matched, vm₁, _, hsm, rfl⟩ := fileStore_ok_elim h
  exact applyDefaults_isSome_mono descs (storeMatched_isSome_mono hsm hs)

theorem ParseConfigFile_isSome_mono {fs : FS} {path : String}
    {descs : List Descriptor} {vm vm₂ : VarMap} {msgs : List String}
    {k : String} (h : ParseConfigFile fs path descs vm = .ok (vm₂, msgs))
    (hs : (vm.entries k).isSome = true) :
    (vm₂.entries k).isSome = true := by
  rcases ParseConfigFile_ok_elim h with ⟨_, rfl, _⟩ | ⟨es, _, hst, _⟩
  · exact hs
  · exact fileStore_isSome_mono hst hs

theorem store_finalSome {descs : List Descriptor} {args : List Arg}
    {vm vm' : VarMap} (hi : FinalSome vm) (h : store descs args vm = .ok vm') :
    FinalSome vm' := by
  obtain ⟨matched, vm₁, _, hsm, rfl⟩ := store_ok_elim h
  exact applyDefaults_finalSome (storeMatched_finalSome hi hsm)

theorem fileStore_finalSome {descs : List Descriptor}
    {es : List (String × String)} {vm vm' : VarMap} (hi : FinalSome vm)
    (h : fileStore descs es vm = .ok vm') : FinalSome vm' := by
  obtain ⟨matched, vm₁, _, hsm, rfl⟩ := fileStore_ok_elim h
  exact applyDefaults_finalSome (storeMatched_finalSome hi hsm)

theorem runVm_eq {P : Params} {fs : FS} {args : List Arg} {vm₀ : VarMap}
    {r : ParseResult} (h : ParseArgs P fs args vm₀ = .ok r) :
    runVm P fs args vm₀ = r.vm := by
  unfold runVm
  rw [h]

theorem parseOut_eq {P : Params} {fs : FS} {args : List Arg} {vm₀ : VarMap}
    {r : ParseResult} (h : ParseArgs P fs args vm₀ = .ok r) :
    parseOut P fs args vm₀ = some (r.ret, r.rendered) := by
  unfold parseOut
  rw [h]
  rfl

theorem runPath_eq {P : Params} {fs : FS} {args : List Arg} {vm₀ : VarMap}
    {r : ParseResult} (h : ParseArgs P fs args vm₀ = .ok r) :
    runPath P fs args vm₀ = r.usedConfigPath := by
  unfold runPath
  rw [h]

theorem finishArgs_help_some {vm₂ : VarMap} (path : String)
    (msgs : List String) (h : (vm₂.entries "help").isSome = true) :
    finishArgs vm₂ path msgs = ⟨false, .generalHelp, vm₂, path, msgs⟩ := by
  unfold finishArgs
  rw [if_pos h]

theorem finishArgs_helpWith {vm₂ : VarMap} (path : String)
    (msgs : List String) {e : Entry} (h₁ : vm₂.entries "help" = none)
    (h₂ : vm₂.entries "help-with" = some e) :
    finishArgs vm₂ path msgs =
      ⟨false, helpWithOutput (getStr e.val), vm₂, path, msgs⟩ := by
  unfold finishArgs
  rw [if_neg (by rw [h₁]; simp), h₂]

/-- `findDesc` resolves `"help"` to the `help` flag descriptor in the full
command-line registry. -/
theorem findDesc_help (P : Params) :
    findDesc (cli_options P) "help" =
      some ⟨"help", some "h", .tFlag, none⟩ := rfl

/-- If `--help` is among the command-line arguments and the run completed,
the run returned false after rendering the general help text. -/
theorem helpPresent_run {P : Params} {fs : FS} {args : List Arg}
    {r : ParseResult} (hmem : (⟨"help", none⟩ : Arg) ∈ args)
    (h : ParseArgs P fs args emptyVarMap = .ok r) :
    r.ret = false ∧ r.rendered = .generalHelp := by
  obtain ⟨vm₁, vm₂, msgs, hst, hcf, hr⟩ := ParseArgs_ok_elim h
  obtain ⟨matched, preC, hma, hsm, hvm₁⟩ := store_ok_elim hst
  have hmm : ((⟨"help", some "h", .tFlag, none⟩ : Descriptor),
      (none : Option String)) ∈ matched :=
    matchArgs_mem hma hmem (findDesc_help P)
  have hfinal : preC.final "help" = true := storeMatched_mem_final hsm hmm
  have hsome : (preC.entries "help").isSome = true :=
    storeMatched_finalSome finalSome_empty hsm "help" hfinal
  have hf₁ : vm₁.final "help" = true := by
    rw [hvm₁, applyDefaults_final]
    exact hfinal
  have hs₁ : (vm₁.entries "help").isSome = true := by
    rw [hvm₁]
    exact applyDefaults_isSome_mono _ hsome
  obtain ⟨e, he₁⟩ := Option.isSome_iff_exists.mp hs₁
  obtain ⟨_, he₂⟩ := ParseConfigFile_final_frozen hcf hf₁ he₁
  have hs₂ : (vm₂.entries "help").isSome = true := by
    rw [he₂]
    rfl
  rw [hr, finishArgs_help_some _ _ hs₂]
  exact ⟨rfl, rfl⟩

/-! ### The claims -/

/-- C1: for every descriptor key in the registry, the merged map after
`ParseArgs` resolves the key to the command-line value if the command line
set it explicitly, else to the config-file value if the file set it
explicitly, else to the descriptor's default; in particular the file
parse, which runs second, never overwrites a key the command-line parse
made final. -/
theorem c1_merge_precedence (P : Params) (args : List Arg)
    (es : List (String × String)) (d : Descriptor) (hd : d ∈ cli_options P)
    (hcli : isOkE (cliParse P args) = true)
    (hfile : isOkE (fileParse P es) = true)
    (hrun : isOkE (ParseArgs P (fun _ => some es) args emptyVarMap) = true) :
    (runVm P (fun _ => some es) args emptyVarMap).entries d.key =
      if (okD (cliParse P args)).final d.key then
        (okD (cliParse P args)).entries d.key
      else if (okD (fileParse P es)).final d.key then
        (okD (fileParse P es)).entries d.key
      else d.defaultValue.map (fun v => (⟨v, true⟩ : Entry)) := by
  obtain ⟨cliVm, hc⟩ := isOkE_ok hcli
  obtain ⟨fileVm, hf⟩ := isOkE_ok hfile
  obtain ⟨r, hr⟩ := isOkE_ok hrun
  have hokc : okD (cliParse P args) = cliVm := by rw [hc]; rfl
  have hokf : okD (fileParse P es) = fileVm := by rw [hf]; rfl
  rw [hokc, hokf, runVm_eq hr]
  obtain ⟨vm₁, vm₂, msgs, hst, hcf, hrfin⟩ := ParseArgs_ok_elim hr
  have hcli' : cliParse P args = .ok vm₁ := hst
  have hcv : cliVm = vm₁ := Except.ok.inj (hc.symm.trans hcli')
  subst hcv
  rcases ParseConfigFile_ok_elim hcf with ⟨hnone, _, _⟩ | ⟨es', hes', hfst, _⟩
  · exact absurd hnone (by simp)
  · have hes : es = es' := Option.some.inj hes'
    subst hes
    obtain ⟨mC, preC, hma, hsmC, hvm₁⟩ := store_ok_elim hst
    have hfile' : fileStore (config_options P) es emptyVarMap = .ok fileVm :=
      hf
    obtain ⟨mF, preF, hmf, hsmF, hfileVm⟩ := fileStore_ok_elim hfile'
    obtain ⟨mF', preM, hmf', hsmM, hvm₂⟩ := fileStore_ok_elim hfst
    have hmm : mF = mF' := Except.ok.inj (hmf.symm.trans hmf')
    subst hmm
    rw [hrfin, finishArgs_vm]
    by_cases hfc : cliVm.final d.key = true
    · rw [if_pos hfc]
      have hFS₁ : FinalSome cliVm := store_finalSome finalSome_empty hst
      obtain ⟨e, he⟩ := Option.isSome_iff_exists.mp (hFS₁ _ hfc)
      obtain ⟨_, he₂⟩ := fileStore_final_frozen hfst hfc he
      rw [he₂, he]
    · rw [if_neg hfc]
      have hfc' : cliVm.final d.key = false := by simpa using hfc
      obtain ⟨hsyncF, hsyncE⟩ := storeMatched_sync hsmM hsmF hfc' rfl
      by_cases hff : fileVm.final d.key = true
      · rw [if_pos hff]
        have hpreF : preF.final d.key = true := by
          rw [hfileVm, applyDefaults_final] at hff
          exact hff
        have hpreM : preM.final d.key = true := by rw [hsyncF]; exact hpreF
        have hFSF : FinalSome preF :=
          storeMatched_finalSome finalSome_empty hsmF
        obtain ⟨e, heF⟩ := Option.isSome_iff_exists.mp (hFSF _ hpreF)
        have heM : preM.entries d.key = some e := by
          rw [hsyncE hpreM, heF]
        rw [hvm₂, applyDefaults_entries_some _ heM,
          hfileVm, applyDefaults_entries_some _ heF]
      · rw [if_neg hff]
        have hff' : fileVm.final d.key = false := by simpa using hff
        have hpreF : preF.final d.key = false := by
          rw [hfileVm, applyDefaults_final] at hff'
          exact hff'
        have hpreM : preM.final d.key = false := by rw [hsyncF]; exact hpreF
        obtain ⟨heM, _⟩ := storeMatched_not_final hsmM hpreM
        have hpreC : preC.final d.key = false := by
          rw [hvm₁, applyDefaults_final] at hfc'
          exact hfc'
        obtain ⟨heC, _⟩ := storeMatched_not_final hsmC hpreC
        have hcliE : cliVm.entries d.key =
            d.defaultValue.map (fun v => (⟨v, true⟩ : Entry)) := by
          rw [hvm₁]
          exact applyDefaults_none_mem _ _ (cli_keys_nodup P) hd heC
        rw [hcliE] at heM
        rcases cli_mem_cases hd with hh | hcfg
        · have hdn : d.defaultValue = none := by
            rcases help_mem_cases hh with rfl | rfl <;> rfl
          rw [hdn] at heM ⊢
          rw [hvm₂, applyDefaults_not_mem _ _ (help_keys_not_config hh), heM]
        · cases hdv : d.defaultValue with
          | some v =>
            rw [hdv] at heM
            rw [hvm₂, applyDefaults_entries_some _ heM]
            rfl
          | none =>
            rw [hdv] at heM
            simp only [Option.map_none'] at heM
            rw [hvm₂,
              applyDefaults_none_mem _ _ (config_keys_nodup P) hcfg heM, hdv]

/-- Witness for C1 at a concrete run: the command line sets `host`, the
config file also sets `host` and sets `log`; the merged `host` follows
the stated precedence. -/
theorem c1_merge_precedence_witness :
    (runVm sampleParams (fun _ => some [("host", "5.6.7.8"), ("log", "1")])
        [⟨"host", some "1.2.3.4"⟩] emptyVarMap).entries "host" =
      if (okD (cliParse sampleParams [⟨"host", some "1.2.3.4"⟩])).final
          "host" then
        (okD (cliParse sampleParams [⟨"host", some "1.2.3.4"⟩])).entries
          "host"
      else if (okD (fileParse sampleParams
          [("host", "5.6.7.8"), ("log", "1")])).final "host" then
        (okD (fileParse sampleParams
          [("host", "5.6.7.8"), ("log", "1")])).entries "host"
      else (some (Value.vString "127.0.0.1")).map
        (fun v => (⟨v, true⟩ : Entry)) :=
  c1_merge_precedence sampleParams [⟨"host", some "1.2.3.4"⟩]
    [("host", "5.6.7.8"), ("log", "1")]
    ⟨"host", none, .tString, some (.vString "127.0.0.1")⟩
    (by decide) (by rfl) (by rfl) (by rfl)

/-- C2: when both the help flag and the help-with flag are present on the
command line, `help` is evaluated first: the run renders only the general
help text (the banner plus the Help category) and returns the stop signal
(false), and `help-with` is not evaluated. -/
theorem c2_help_precedence (P : Params) (fs : FS) (args : List Arg)
    (hmem : (⟨"help", none⟩ : Arg) ∈ args)
    (hok : isOkE (ParseArgs P fs args emptyVarMap) = true) :
    parseOut P fs args emptyVarMap = some (false, .generalHelp) ∧
    renderedDescs P .generalHelp = help := by
  obtain ⟨r, hr⟩ := isOkE_ok hok
  obtain ⟨h1, h2⟩ := helpPresent_run hmem hr
  rw [parseOut_eq hr, h1, h2]
  exact ⟨rfl, rfl⟩

/-- Witness for C2: `--help --help-with basic` renders only the general
help text and stops. -/
theorem c2_help_precedence_witness :
    parseOut sampleParams (fun _ => none)
        [⟨"help", none⟩, ⟨"help-with", some "basic"⟩] emptyVarMap =
      some (false, .generalHelp) ∧
    renderedDescs sampleParams .generalHelp = help :=
  c2_help_precedence sampleParams (fun _ => none)
    [⟨"help", none⟩, ⟨"help-with", some "basic"⟩] (by decide) (by rfl)

/-- C4: an unopenable config file is not fatal: `ParseConfigFile` reports
the condition and leaves the map untouched, the whole run still succeeds,
and the merged result equals the command-line store (command-line values
plus built-in defaults) alone. -/
theorem c4_missing_config_file (P : Params) (args : List Arg) (path : String)
    (descs : List Descriptor) (vm : VarMap)
    (hok : isOkE (cliParse P args) = true) :
    ParseConfigFile (fun _ => none) path descs vm =
      .ok (vm, ["Could not open " ++ path ++ "!"]) ∧
    isOkE (ParseArgs P (fun _ => none) args emptyVarMap) = true ∧
    ∀ k, (runVm P (fun _ => none) args emptyVarMap).entries k =
      (okD (cliParse P args)).entries k := by
  obtain ⟨cliVm, hc⟩ := isOkE_ok hok
  have hc' : store (cli_options P) args emptyVarMap = .ok cliVm := hc
  have hpa : ParseArgs P (fun _ => none) args emptyVarMap =
      .ok (finishArgs cliVm (getConfigPath cliVm)
        ["Could not open " ++ getConfigPath cliVm ++ "!"]) := by
    unfold ParseArgs
    rw [hc']
    rfl
  have hokc : okD (cliParse P args) = cliVm := by rw [hc]; rfl
  refine ⟨rfl, by rw [hpa]; rfl, ?_⟩
  intro k
  rw [runVm_eq hpa, finishArgs_vm, hokc]

/-- Witness for C4 at `/nonexistent/path` with an empty command line. -/
theorem c4_missing_config_file_witness :
    ParseConfigFile (fun _ => none) "/nonexistent/path"
        (config_options sampleParams) emptyVarMap =
      .ok (emptyVarMap, ["Could not open " ++ "/nonexistent/path" ++ "!"]) ∧
    isOkE (ParseArgs sampleParams (fun _ => none) [] emptyVarMap) = true ∧
    (runVm sampleParams (fun _ => none) [] emptyVarMap).entries "port" =
      (okD (cliParse sampleParams [])).entries "port" := by
  have h := c4_missing_config_file sampleParams [] "/nonexistent/path"
    (config_options sampleParams) emptyVarMap (by rfl)
  exact ⟨h.1, h.2.1, h.2.2 "port"⟩

/-- C5 counterexample: an unknown command-line token does not make
`ParseArgs` return the boolean false; the call evaluates to a propagated
parse error (the boost exception), so no `(false, _)` output exists. -/
theorem c5_counterexample :
    ParseArgs sampleParams (fun _ => none) [⟨"bogus", some "x"⟩] emptyVarMap
      = .error (.unknownOption "bogus") ∧
    parseOut sampleParams (fun _ => none) [⟨"bogus", some "x"⟩] emptyVarMap
      = none := ⟨rfl, rfl⟩

/-- C5 (amended): a fatal command-line parse error (UnknownOption or
TypeMismatch) terminates `ParseArgs` before the config-file parse and the
merge complete: the call evaluates to the propagated error, so no resolved
map is exposed to consumers; the do-not-continue signal the caller
receives is the thrown parse error, not a boolean false. -/
theorem c5_parse_error_terminates (P : Params) (fs : FS) (args : List Arg)
    (vm₀ : VarMap) (e : ParseError)
    (h : store (cli_options P) args vm₀ = .error e) :
    ParseArgs P fs args vm₀ = .error e ∧
    parseOut P fs args vm₀ = none ∧
    runVm P fs args vm₀ = emptyVarMap := by
  have hpa : ParseArgs P fs args vm₀ = .error e := by
    unfold ParseArgs
    rw [h]
  refine ⟨hpa, ?_, ?_⟩
  · unfold parseOut
    rw [hpa]
    rfl
  · unfold runVm
    rw [hpa]

/-- Witness for the amended C5 with the TypeMismatch kind:
`--port notanumber` aborts the run with the coercion error. -/
theorem c5_parse_error_terminates_witness :
    ParseArgs sampleParams (fun _ => none) [⟨"port", some "notanumber"⟩]
      emptyVarMap = .error (.typeMismatch "port" "notanumber") ∧
    parseOut sampleParams (fun _ => none) [⟨"port", some "notanumber"⟩]
      emptyVarMap = none ∧
    runVm sampleParams (fun _ => none) [⟨"port", some "notanumber"⟩]
      emptyVarMap = emptyVarMap :=
  c5_parse_error_terminates sampleParams (fun _ => none)
    [⟨"port", some "notanumber"⟩] emptyVarMap
    (.typeMismatch "port" "notanumber") (by rfl)

/-- C9 counterexample: a run with no sources at all completes, yet the
merged map has no entry for `help` — the `help` key (like `help-with`) has
no default value, so it does not fall back to one. -/
theorem c9_counterexample :
    isOkE (ParseArgs sampleParams (fun _ => none) [] emptyVarMap) = true ∧
    (runVm sampleParams (fun _ => none) [] emptyVarMap).entries "help" =
      none := ⟨rfl, rfl⟩

/-- C9 (amended): after a merge completes, every registry key that
declares a default value has an entry in the resolved map even if unset by
the user (falling back to the default); `help` and `help-with` declare no
default and have an entry only when explicitly supplied. -/
theorem c9_defaulted_keys_present (P : Params) (fs : FS) (args : List Arg)
    (d : Descriptor) (hd : d ∈ cli_options P)
    (hdef : d.defaultValue.isSome = true)
    (hok : isOkE (ParseArgs P fs args emptyVarMap) = true) :
    ((runVm P fs args emptyVarMap).entries d.key).isSome = true := by
  obtain ⟨r, hr⟩ := isOkE_ok hok
  obtain ⟨vm₁, vm₂, msgs, hst, hcf, hrfin⟩ := ParseArgs_ok_elim hr
  obtain ⟨mC, preC, hma, hsm, hvm₁⟩ := store_ok_elim hst
  have h₁ : ((vm₁).entries d.key).isSome = true := by
    rw [hvm₁]
    exact applyDefaults_mem_isSome _ _ (cli_keys_nodup P) hd hdef
  have h₂ := ParseConfigFile_isSome_mono hcf h₁
  rw [runVm_eq hr, hrfin, finishArgs_vm]
  exact h₂

/-- Witness for the amended C9: `port` is present after an empty-source
run. -/
theorem c9_defaulted_keys_present_witness :
    ((runVm sampleParams (fun _ => none) [] emptyVarMap).entries
      "port").isSome = true :=
  c9_defaulted_keys_present sampleParams (fun _ => none) []
    ⟨"port", some "p", .tInt, some (.vInt 10000)⟩ (by decide) (by rfl)
    (by rfl)

/-- C10 counterexample: a second `ParseArgs` invocation against the map
left by a first invocation succeeds but keeps the first run's explicit
`port` value 1234: its own input `--port 5678` does not determine the
result, because the shared `var_map` is never cleared and explicitly
stored keys are final. -/
theorem c10_counterexample :
    isOkE (ParseArgs sampleParams (fun _ => none) [⟨"port", some "5678"⟩]
      (runVm sampleParams (fun _ => none) [⟨"port", some "1234"⟩]
        emptyVarMap)) = true ∧
    (runVm sampleParams (fun _ => none) [⟨"port", some "5678"⟩]
      (runVm sampleParams (fun _ => none) [⟨"port", some "1234"⟩]
        emptyVarMap)).entries "port" =
      some ⟨.vInt 1234, false⟩ := ⟨rfl, rfl⟩

/-- C10 (amended): a second invocation of the CLI-then-file parse sequence
shares the first invocation's variables map; every key the earlier run
made final keeps its earlier value and its finality through the new run,
whatever the new run's inputs, so the new resolved state is not determined
by the new invocation's inputs and defaults alone. -/
theorem c10_final_keys_persist (P : Params) (fs : FS) (args : List Arg)
    (vm₀ : VarMap) (k : String) (e : Entry)
    (hf : vm₀.final k = true) (he : vm₀.entries k = some e)
    (hok : isOkE (ParseArgs P fs args vm₀) = true) :
    (runVm P fs args vm₀).entries k = some e ∧
    (runVm P fs args vm₀).final k = true := by
  obtain ⟨r, hr⟩ := isOkE_ok hok
  obtain ⟨vm₁, vm₂, msgs, hst, hcf, hrfin⟩ := ParseArgs_ok_elim hr
  obtain ⟨hf₁, he₁⟩ := store_final_frozen hst hf he
  obtain ⟨hf₂, he₂⟩ := ParseConfigFile_final_frozen hcf hf₁ he₁
  rw [runVm_eq hr, hrfin, finishArgs_vm]
  exact ⟨he₂, hf₂⟩

/-- Witness for the amended C10 on the reload scenario of the
counterexample. -/
theorem c10_final_keys_persist_witness :
    (runVm sampleParams (fun _ => none) [⟨"port", some "5678"⟩]
      (runVm sampleParams (fun _ => none) [⟨"port", some "1234"⟩]
        emptyVarMap)).entries "port" = some ⟨.vInt 1234, false⟩ ∧
    (runVm sampleParams (fun _ => none) [⟨"port", some "5678"⟩]
      (runVm sampleParams (fun _ => none) [⟨"port", some "1234"⟩]
        emptyVarMap)).final "port" = true :=
  c10_final_keys_persist sampleParams (fun _ => none)
    [⟨"port", some "5678"⟩]
    (runVm sampleParams (fun _ => none) [⟨"port", some "1234"⟩] emptyVarMap)
    "port" ⟨.vInt 1234, false⟩ (by rfl) (by rfl) (by rfl)

/-- C3: with `help` absent and `help-with` explicitly supplied with value
`s`, the run returns the stop signal (false) and renders per the cascade:
`"all"` renders every category except Help, each of the six known category
names renders exactly that category, and any other string renders the
unknown-option message naming `s` and suggesting `--help`. -/
theorem c3_help_with (P : Params) (fs : FS) (args : List Arg) (s : String)
    (hok : isOkE (ParseArgs P fs args emptyVarMap) = true)
    (hnh : (runVm P fs args emptyVarMap).entries "help" = none)
    (hhw : (runVm P fs args emptyVarMap).entries "help-with" =
      some ⟨.vString s, false⟩) :
    parseOut P fs args emptyVarMap = some (false, helpWithOutput s) ∧
    (s = "all" → helpWithOutput s = .allOptions ∧
      renderedDescs P .allOptions = config_options P) ∧
    (s = "basic" → helpWithOutput s = .oneCategory .basic) ∧
    (s = "system" → helpWithOutput s = .oneCategory .system) ∧
    (s = "network" → helpWithOutput s = .oneCategory .network) ∧
    (s = "proxy" → helpWithOutput s = .oneCategory .proxy) ∧
    (s = "i2pcs" → helpWithOutput s = .oneCategory .i2pcs) ∧
    (s = "config" → helpWithOutput s = .oneCategory .config) ∧
    (¬ s ∈ (["all", "basic", "system", "network", "proxy", "i2pcs",
        "config"] : List String) →
      helpWithOutput s = .unknownHelpWith s) := by
  obtain ⟨r, hr⟩ := isOkE_ok hok
  rw [runVm_eq hr] at hnh hhw
  obtain ⟨vm₁, vm₂, msgs, hst, hcf, hrfin⟩ := ParseArgs_ok_elim hr
  rw [hrfin, finishArgs_vm] at hnh hhw
  refine ⟨?_, ?_, ?_, ?_, ?_, ?_, ?_, ?_, ?_⟩
  · rw [parseOut_eq hr, hrfin, finishArgs_helpWith _ _ hnh hhw]
    rfl
  · intro h; subst h; exact ⟨rfl, rfl⟩
  · intro h; subst h; rfl
  · intro h; subst h; rfl
  · intro h; subst h; rfl
  · intro h; subst h; rfl
  · intro h; subst h; rfl
  · intro h; subst h; rfl
  · intro hns
    simp only [List.mem_cons, List.not_mem_nil, or_false] at hns
    push_neg at hns
    obtain ⟨h1, h2, h3, h4, h5, h6, h7⟩ := hns
    unfold helpWithOutput
    rw [if_neg h1, if_neg h2, if_neg h3, if_neg h4, if_neg h5, if_neg h6,
      if_neg h7]

/-- Witness for C3 at `--help-with network`. -/
theorem c3_help_with_witness :
    parseOut sampleParams (fun _ => none) [⟨"help-with", some "network"⟩]
      emptyVarMap = some (false, helpWithOutput "network") ∧
    ("network" = "all" → helpWithOutput "network" = .allOptions ∧
      renderedDescs sampleParams .allOptions =
        config_options sampleParams) ∧
    ("network" = "basic" →
      helpWithOutput "network" = .oneCategory .basic) ∧
    ("network" = "system" →
      helpWithOutput "network" = .oneCategory .system) ∧
    ("network" = "network" →
      helpWithOutput "network" = .oneCategory .network) ∧
    ("network" = "proxy" →
      helpWithOutput "network" = .oneCategory .proxy) ∧
    ("network" = "i2pcs" →
      helpWithOutput "network" = .oneCategory .i2pcs) ∧
    ("network" = "config" →
      helpWithOutput "network" = .oneCategory .config) ∧
    (¬ "network" ∈ (["all", "basic", "system", "network", "proxy", "i2pcs",
        "config"] : List String) →
      helpWithOutput "network" = .unknownHelpWith "network") :=
  c3_help_with sampleParams (fun _ => none) [⟨"help-with", some "network"⟩]
    "network" (by rfl) (by rfl) (by rfl)

/-- C6 counterexample: on a help run (`--help` present; the run stops with
the general help), the merged map nonetheless contains the explicit,
file-sourced `port` value: reading the config file changed state before
the help check, contradicting "no state changes arising from reading the
config file occur on a help run". -/
theorem c6_counterexample :
    parseOut sampleParams (fun _ => some [("port", "7777")]) [⟨"help", none⟩]
      emptyVarMap = some (false, .generalHelp) ∧
    (runVm sampleParams (fun _ => some [("port", "7777")]) [⟨"help", none⟩]
      emptyVarMap).entries "port" = some ⟨.vInt 7777, false⟩ := ⟨rfl, rfl⟩

/-- C6 (amended): when the help flag is present, `ParseArgs` renders the
banner plus the Help category and returns the stop signal; however the
config file has already been parsed into the shared map before the help
check, so the resolved map equals the full two-source merge — the help
rendering itself adds no state change beyond the display. -/
theorem c6_help_renders_after_file_parse (P : Params) (args : List Arg)
    (es : List (String × String))
    (hmem : (⟨"help", none⟩ : Arg) ∈ args)
    (hok : isOkE (ParseArgs P (fun _ => some es) args emptyVarMap) = true) :
    parseOut P (fun _ => some es) args emptyVarMap =
      some (false, .generalHelp) ∧
    ∀ k, (runVm P (fun _ => some es) args emptyVarMap).entries k =
      (okD (mergedParse P args es)).entries k := by
  obtain ⟨r, hr⟩ := isOkE_ok hok
  obtain ⟨h1, h2⟩ := helpPresent_run hmem hr
  constructor
  · rw [parseOut_eq hr, h1, h2]
  · intro k
    obtain ⟨vm₁, vm₂, msgs, hst, hcf, hrfin⟩ := ParseArgs_ok_elim hr
    rcases ParseConfigFile_ok_elim hcf with ⟨hnone, _, _⟩ |
      ⟨es', hes', hfst, _⟩
    · exact absurd hnone (by simp)
    · have hes : es = es' := Option.some.inj hes'
      subst hes
      have hmp : mergedParse P args es = .ok vm₂ := by
        unfold mergedParse
        rw [hst]
        exact hfst
      rw [runVm_eq hr, hrfin, finishArgs_vm, hmp]
      rfl

/-- Witness for the amended C6: a help run against a config file that sets
`port`. -/
theorem c6_help_renders_after_file_parse_witness :
    parseOut sampleParams (fun _ => some [("port", "7777")])
      [⟨"help", none⟩] emptyVarMap = some (false, .generalHelp) ∧
    (runVm sampleParams (fun _ => some [("port", "7777")])
      [⟨"help", none⟩] emptyVarMap).entries "port" =
      (okD (mergedParse sampleParams [⟨"help", none⟩]
        [("port", "7777")])).entries "port" := by
  have h := c6_help_renders_after_file_parse sampleParams [⟨"help", none⟩]
    [("port", "7777")] (by decide) (by rfl)
  exact ⟨h.1, h.2 "port"⟩

/-- C7: every output of the randomizer collaborator satisfying its
contract `SecureRandomInRange(9111, 30777)` becomes the registry's `port`
default and lies in the inclusive range [9111, 30777]; any number of
independent calls (a list of outputs) stays inside the range. -/
theorem c7_port_default_range (c t : String) (rs : List Int)
    (h : ∀ r ∈ rs, SecureRandomInRange 9111 30777 r) :
    ∀ r ∈ rs, getDefault (cli_options ⟨r, c, t⟩) "port" = some (.vInt r) ∧
      9111 ≤ r ∧ r ≤ 30777 := by
  intro r hr
  exact ⟨rfl, (h r hr).1, (h r hr).2⟩

/-- Witness for C7 at a sample randomizer output. -/
theorem c7_port_default_range_witness :
    getDefault (cli_options ⟨20000, "kovri.conf", "tunnels.cfg"⟩) "port" =
      some (.vInt 20000) ∧ (9111 : Int) ≤ 20000 ∧ (20000 : Int) ≤ 30777 :=
  c7_port_default_range "kovri.conf" "tunnels.cfg" [20000]
    (fun r hr => by
      rw [List.mem_singleton] at hr
      subst hr
      exact ⟨by decide, by decide⟩)
    20000 (List.mem_singleton.mpr rfl)

/-- C8: the path `ParseArgs` hands to `ParseConfigFile` is the `config`
value bound by the command-line store (and notify) before the file parse
runs: the explicitly supplied command-line value when one is given,
otherwise the externally resolved default path. -/
theorem c8_config_path_binding (P : Params) (fs : FS) (args : List Arg)
    (hok : isOkE (ParseArgs P fs args emptyVarMap) = true) :
    runPath P fs args emptyVarMap = getConfigPath (okD (cliParse P args)) ∧
    ((okD (cliParse P args)).final "config" = false →
      runPath P fs args emptyVarMap = P.kovriConfPath) ∧
    (∀ p, (okD (cliParse P args)).entries "config" =
        some ⟨.vString p, false⟩ →
      runPath P fs args emptyVarMap = p) := by
  obtain ⟨r, hr⟩ := isOkE_ok hok
  obtain ⟨vm₁, vm₂, msgs, hst, hcf, hrfin⟩ := ParseArgs_ok_elim hr
  have hokc : okD (cliParse P args) = vm₁ := by
    have hc' : cliParse P args = .ok vm₁ := hst
    rw [hc']
    rfl
  have hpath : runPath P fs args emptyVarMap = getConfigPath vm₁ := by
    rw [runPath_eq hr, hrfin, finishArgs_path]
  refine ⟨by rw [hokc, hpath], ?_, ?_⟩
  · intro hfc
    rw [hokc] at hfc
    obtain ⟨mC, preC, hma, hsm, hvm₁⟩ := store_ok_elim hst
    have hpreC : preC.final "config" = false := by
      rw [hvm₁, applyDefaults_final] at hfc
      exact hfc
    obtain ⟨heC, _⟩ := storeMatched_not_final hsm hpreC
    have heC' : preC.entries "config" = none := heC
    have hmemc : (⟨"config", some "c", .tString,
        some (.vString P.kovriConfPath)⟩ : Descriptor) ∈ cli_options P := by
      simp [cli_options, config_options, config]
    have hentry : vm₁.entries "config" =
        some ⟨.vString P.kovriConfPath, true⟩ := by
      rw [hvm₁]
      exact applyDefaults_none_mem _ _ (cli_keys_nodup P) hmemc heC'
    rw [hpath]
    unfold getConfigPath
    rw [hentry]
    rfl
  · intro p hp
    rw [hokc] at hp
    rw [hpath]
    unfold getConfigPath
    rw [hp]
    rfl

/-- Witness for C8: `--config /my.conf` is the path the file parse uses. -/
theorem c8_config_path_binding_witness :
    runPath sampleParams (fun _ => none) [⟨"config", some "/my.conf"⟩]
      emptyVarMap =
      getConfigPath (okD (cliParse sampleParams
        [⟨"config", some "/my.conf"⟩])) ∧
    runPath sampleParams (fun _ => none) [⟨"config", some "/my.conf"⟩]
      emptyVarMap = "/my.conf" := by
  have h := c8_config_path_binding sampleParams (fun _ => none)
    [⟨"config", some "/my.conf"⟩] (by rfl)
  exact ⟨h.1, h.2.2 "/my.conf" (by rfl)⟩

end Kovri


